import Mathlib

/-!
Verification of the generate-then-execute pipeline of the Data-Analyst-Agent
repository (src/app/llm_tools.py), as a shallow embedding in Lean 4.

Scripts are strings (lists of characters).  The Python-level execution of a
script inside `exec` is abstracted by a parameter `execFn` that, given the
patched script text and the constructed global scope, either terminates
normally with the text it printed to the redirected standard output, or
raises a Python exception (`PyExc`); the flag `isExceptionSubclass` records
whether the raised class derives from `Exception` (Python's `except
Exception` catches exactly those; `BaseException`-only classes such as
`SystemExit` are not caught).  Everything around that call — fence
stripping, regex-based injection of the cleaning block, the scope
construction, stdout redirection with `finally`-restore, output parsing —
is translated from the source.
-/

namespace DataAnalystAgent

/-- Python whitespace characters: the set stripped by `str.strip()` (ASCII
part) and matched by the regex class `\s`. -/
def pyWsChar (c : Char) : Bool :=
  c = ' ' || c = '\t' || c = '\n' || c = '\r' || c = '\x0b' || c = '\x0c'

/-- Remove the longest suffix whose characters satisfy `p`. -/
def dropTrailingWhile (p : Char → Bool) (l : List Char) : List Char :=
  (l.reverse.dropWhile p).reverse

/-- Python `str.strip(chars)` semantics: remove characters satisfying `p`
from both ends. -/
def stripBy (p : Char → Bool) (l : List Char) : List Char :=
  dropTrailingWhile p (l.dropWhile p)

/-- Python `str.strip()` on a character list. -/
def pyStripL (l : List Char) : List Char := stripBy pyWsChar l

/-- Python `str.strip()`. -/
def pyStrip (s : String) : String := ⟨pyStripL s.data⟩

/-- Python `str.strip(chars)`: `chars` is a set of characters, not a
literal substring. -/
def stripSetL (cs : List Char) (l : List Char) : List Char :=
  stripBy (fun c => cs.contains c) l

/-- The fence-stripping step of `execute_python_code`, line 256 of
llm_tools.py: `code.strip().strip('```python').strip('```')`.  Note that
Python's `str.strip` treats its argument as a character set. -/
def stripFencesL (l : List Char) : List Char :=
  stripSetL "```".data (stripSetL "```python".data (pyStripL l))

/-- String-level wrapper for `stripFencesL`. -/
def stripFences (s : String) : String := ⟨stripFencesL s.data⟩

/-- `dropLit pat l`: if `pat` is a literal prefix of `l`, the remainder. -/
def dropLit : List Char → List Char → Option (List Char)
  | [], l => some l
  | _ :: _, [] => none
  | p :: ps, c :: cs => if p = c then dropLit ps cs else none

/-- Accumulator loop for `lastIdx`. -/
def lastIdxAux (x : Char) : List Char → Nat → Option Nat → Option Nat
  | [], _, acc => acc
  | c :: cs, i, acc => lastIdxAux x cs (i + 1) (if c = x then some i else acc)

/-- Index of the last occurrence of `x` in `l` (what the backtracking of a
greedy `.*` before a literal `x` ends at). -/
def lastIdx (x : Char) (l : List Char) : Option Nat := lastIdxAux x l 0 none

/-- The regex class `[^\n]` as a boolean predicate. -/
def nonNl (c : Char) : Bool := c ≠ '\n'

/-- Matcher for the regex `df\s*=\s*scrape_data\(.*\)` of line 316 of
llm_tools.py, at the head of the list: the length of the (leftmost-starting,
greedy) match, or `none`.  `\s` also matches newlines; `.` does not, so the
greedy `.*\)` ends at the last `)` before the next newline. -/
def matchScrapeAt (l : List Char) : Option Nat :=
  match dropLit "df".data l with
  | none => none
  | some r1 =>
    match r1.dropWhile pyWsChar with
    | '=' :: r2 =>
      match dropLit "scrape_data(".data (r2.dropWhile pyWsChar) with
      | none => none
      | some r3 =>
        match lastIdx ')' (r3.takeWhile nonNl) with
        | none => none
        | some j =>
          some (2 + (r1.takeWhile pyWsChar).length + 1
            + (r2.takeWhile pyWsChar).length + 12 + j + 1)
    | _ => none

/-- Leftmost match of an anchored matcher `m`: `re` scans start positions
left to right and takes the first position where `m` succeeds. -/
def firstMatchGen (m : List Char → Option Nat) : List Char → Option (Nat × Nat)
  | [] => none
  | c :: rest =>
    match m (c :: rest) with
    | some k => some (0, k)
    | none => (firstMatchGen m rest).map (fun p => (p.1 + 1, p.2))

/-- The `injected_cleaning` string of lines 308-313 of llm_tools.py,
verbatim. -/
def injected_cleaning : String :=
  "\n# --- Auto-clean key numeric columns ---\nif 'Worldwide gross' in df.columns or 'Rank' in df.columns or 'Peak' in df.columns:\n    df = clean_numeric_columns(df, ['Worldwide gross', 'Rank', 'Peak'])\n    df = df.dropna(subset=['Worldwide gross', 'Rank', 'Peak'])\n"

/-- The `re.sub(r"(df\s*=\s*scrape_data\(.*\))", r"\1\n" + injected_cleaning,
cleaned_code, count=1)` of lines 315-320: replace the first match (if any)
by itself followed by a newline and the cleaning block. -/
def injectCleaningL (l : List Char) : List Char :=
  match firstMatchGen matchScrapeAt l with
  | none => l
  | some (i, k) => l.take (i + k) ++ '\n' :: injected_cleaning.data ++ l.drop (i + k)

/-- String-level wrapper for `injectCleaningL`. -/
def injectCleaning (s : String) : String := ⟨injectCleaningL s.data⟩

/-- The characters of the sanitized field name `Worldwide gross`. -/
def wgChars : List Char := "Worldwide gross".data

/-- The regex class `['\"]`: either quote character, independently. -/
def isQuoteChar (c : Char) : Bool := c = '\'' || c = '"'

/-- Matcher for `df\[['\"]Worldwide gross['\"]\]` at the head of the list:
the remainder after the closing `]`.  Always consumes exactly 21
characters when it succeeds. -/
def matchFieldRef (l : List Char) : Option (List Char) :=
  match dropLit "df[".data l with
  | some (q :: r1) =>
    if isQuoteChar q then
      match dropLit wgChars r1 with
      | some (q2 :: b :: r2) => if isQuoteChar q2 && b = ']' then some r2 else none
      | _ => none
    else none
  | _ => none

/-- The greedy regex tail `[^\n]*\n?`: how many characters it consumes. -/
def lineTail (r : List Char) : Nat :=
  match r.drop (r.takeWhile nonNl).length with
  | c :: _ =>
    if c = '\n' then (r.takeWhile nonNl).length + 1
    else (r.takeWhile nonNl).length
  | [] => (r.takeWhile nonNl).length

/-- Matcher for the two sanitizer regexes of lines 239-248 of llm_tools.py:
`df\[['\"]Worldwide gross['\"]\]\s*=\s*df\[['\"]Worldwide gross['\"]\]`
followed by `\.str[^\n]*\n?` when `needStr` (the first pass) and by
`[^\n]*\n?` otherwise (the second pass).  Returns the match length at the
head of the list. -/
def matchWgAssign (needStr : Bool) (l : List Char) : Option Nat :=
  match matchFieldRef l with
  | none => none
  | some r1 =>
    match r1.dropWhile pyWsChar with
    | [] => none
    | c :: r2 =>
      if c = '=' then
        match matchFieldRef (r2.dropWhile pyWsChar) with
        | none => none
        | some r3 =>
          if needStr then
            match dropLit ".str".data r3 with
            | none => none
            | some r4 =>
              some (21 + (r1.takeWhile pyWsChar).length + 1
                + (r2.takeWhile pyWsChar).length + 21 + 4 + lineTail r4)
          else
            some (21 + (r1.takeWhile pyWsChar).length + 1
              + (r2.takeWhile pyWsChar).length + 21 + lineTail r3)
      else none

/-- `re.sub(pattern, "", text)` (no count): repeatedly remove the leftmost
match and continue scanning after it; the fuel only bounds the number of
removals (each removal consumes at least one character, so `text.length`
fuel is enough). -/
def subAllGen (m : List Char → Option Nat) : Nat → List Char → List Char
  | 0, l => l
  | fuel + 1, l =>
    match firstMatchGen m l with
    | none => l
    | some (i, k) => l.take i ++ subAllGen m fuel (l.drop (i + k))

/-- `re.sub(pattern, "", text)` with adequate fuel. -/
def reSubAll (m : List Char → Option Nat) (l : List Char) : List Char :=
  subAllGen m l.length l

/-- The sanitization step of `generate_python_code` (lines 236-250): two
sequential global substitutions, the `.str`-chain pass then the general
reassignment pass, each deleting its matches. -/
def sanitize_code (s : String) : String :=
  ⟨reSubAll (matchWgAssign false) (reSubAll (matchWgAssign true) s.data)⟩

/-- Join script lines with newline terminators. -/
def joinL : List (List Char) → List Char
  | [] => []
  | l :: ls => l ++ '\n' :: joinL ls

/-- Whether `pat` is a literal prefix of `l`. -/
def startsWithL (pat l : List Char) : Bool := (dropLit pat l).isSome

/-- Whether `pat` occurs as a contiguous substring of `l`. -/
def hasSubstr (pat : List Char) : List Char → Bool
  | [] => startsWithL pat []
  | c :: rest => startsWithL pat (c :: rest) || hasSubstr pat rest

/-- The start positions of the field-name literal inside a line. -/
def wgStarts (l : List Char) : List Nat :=
  (List.range l.length).filter (fun i => startsWithL wgChars (l.drop i))

/-- Whether a whole line (with its newline) is one full match of the
sanitizer pattern: such a line is deleted by the corresponding pass. -/
def isFullBad (ns : Bool) (l : List Char) : Bool :=
  decide (matchWgAssign ns (l ++ ['\n']) = some (l.length + 1))

/-- The literal `df[q₁]Worldwide gross[q₂]` field reference with the given
quote characters. -/
def fieldRef (q1 q2 : Char) : List Char :=
  'd' :: 'f' :: '[' :: q1 :: (wgChars ++ [q2, ']'])

/-- A run of non-newline whitespace. -/
def IsWsRun (cs : List Char) : Prop := ∀ c ∈ cs, pyWsChar c = true ∧ c ≠ '\n'

/-- A line with no occurrence of the field name: the sanitizer patterns
cannot start inside it. -/
def CleanWgLine (l : List Char) : Prop := hasSubstr wgChars l = false

instance decCleanWgLine (l : List Char) : Decidable (CleanWgLine l) :=
  inferInstanceAs (Decidable (hasSubstr wgChars l = false))

instance decIsWsRun (cs : List Char) : Decidable (IsWsRun cs) :=
  inferInstanceAs (Decidable (∀ c ∈ cs, pyWsChar c = true ∧ c ≠ '\n'))

/-- A single-line statement of the shape
`df[q]Worldwide gross[q] = df[q]Worldwide gross[q]<tail>`: the textual shape
the sanitizer's second pass deletes.  The tail carries no newline, its
first non-whitespace character exists and is not `=`, and the field name
occurs in the line exactly as the two sides of the assignment. -/
def BadWgLine (l : List Char) : Prop :=
  ∃ q1 q2 q3 q4 sp1 sp2 tws tc trest,
    isQuoteChar q1 = true ∧ isQuoteChar q2 = true ∧
    isQuoteChar q3 = true ∧ isQuoteChar q4 = true ∧
    IsWsRun sp1 ∧ IsWsRun sp2 ∧ IsWsRun tws ∧
    pyWsChar tc = false ∧ tc ≠ '=' ∧
    (∀ c ∈ tc :: trest, c ≠ '\n') ∧
    l = fieldRef q1 q2 ++ sp1 ++ '=' :: sp2
      ++ fieldRef q3 q4 ++ (tws ++ tc :: trest) ∧
    wgStarts l = [4, 21 + sp1.length + 1 + sp2.length + 4]

/-- A raised Python exception: its message and whether its class derives
from `Exception` (as opposed to only `BaseException`, like `SystemExit`). -/
structure PyExc where
  isExceptionSubclass : Bool
  msg : String
  deriving DecidableEq

/-- Outcome of running `exec(safe_code, exec_globals)`: normal termination
with the text written to the redirected stdout, or a raised exception. -/
inductive ExecOutcome where
  | ok (printed : String)
  | exn (e : PyExc)
  deriving DecidableEq

/-- The result dictionaries of `execute_python_code`: the parsed JSON value
on success, or one of the three error-dictionary shapes of lines 329, 331
and 334. -/
inductive ExecutionResult (α : Type) where
  | success (v : α)
  | outputFormatError (raw : String) (code : String)
  | noOutputError (code : String)
  | scriptError (errmsg : String) (code : String)
  deriving DecidableEq

/-- A value bound in the execution scope `exec_globals`. -/
inductive PyBinding (V : Type) where
  | lib (modName : String)
  | toolkit (fname : String)
  | builtinTable (names : List String)
  | ctxVal (v : V)
  deriving DecidableEq

/-- The allow-listed `__builtins__` dictionary keys of lines 265-282. -/
def allowed_builtins : List String :=
  ["print", "__import__", "str", "int", "float", "bool", "list", "dict",
   "len", "sum", "min", "max", "abs", "round", "json", "re"]

/-- Python dict assignment `d[k] = v` on an association list: overwrite the
binding of `k` if present, append it otherwise. -/
def dictSet {V : Type} (k : String) (v : PyBinding V)
    (d : List (String × PyBinding V)) : List (String × PyBinding V) :=
  if d.any (fun p => p.1 = k) then
    d.map (fun p => if p.1 = k then (k, v) else p)
  else d ++ [(k, v)]

/-- The fixed part of `exec_globals` (lines 258-282): toolkit callables,
libraries, and the restricted `__builtins__` table. -/
def base_globals (V : Type) : List (String × PyBinding V) :=
  [("pd", .lib "pandas"), ("plt", .lib "matplotlib.pyplot"),
   ("sns", .lib "seaborn"),
   ("scrape_data", .toolkit "scrape_data"),
   ("image_to_base64_uri", .toolkit "image_to_base64_uri"),
   ("run_duckdb_query", .toolkit "run_duckdb_query"),
   ("__builtins__", .builtinTable allowed_builtins)]

/-- The full `exec_globals` of a call: the fixed bindings, then
`**data_context` merged in, then `clean_numeric_columns` added
(lines 258-300).  Rebuilt from scratch on every call. -/
def build_exec_globals {V : Type} (ctx : List (String × V)) :
    List (String × PyBinding V) :=
  dictSet "clean_numeric_columns" (.toolkit "clean_numeric_columns")
    (ctx.foldl (fun d p => dictSet p.1 (.ctxVal p.2) d) (base_globals V))

/-- `execute_python_code` (lines 255-336 of llm_tools.py).  `execFn`
abstracts the `exec` call; `loads` abstracts `json.loads` (`none` for a
`JSONDecodeError`); `stdout0` is the `sys.stdout` target saved in
`old_stdout`.  The returned pair carries the function's result — `Sum.inr`
when a non-`Exception` exception propagates past the `except Exception`
clause — together with the `sys.stdout` target after the call: the
`finally` block restores `old_stdout` on every path, caught or not. -/
def execute_python_code {V σ α : Type}
    (execFn : String → List (String × PyBinding V) → ExecOutcome)
    (loads : String → Option α)
    (code : String) (data_context : List (String × V)) (stdout0 : σ) :
    (ExecutionResult α ⊕ PyExc) × σ :=
  let cleaned_code := stripFences code
  let exec_globals := build_exec_globals data_context
  let safe_code := injectCleaning cleaned_code
  match execFn safe_code exec_globals with
  | .exn e =>
      if e.isExceptionSubclass then
        (Sum.inl (.scriptError ("Code execution failed: " ++ e.msg) cleaned_code),
         stdout0)
      else (Sum.inr e, stdout0)
  | .ok printed =>
      let output := pyStrip printed
      if output = "" then (Sum.inl (.noOutputError safe_code), stdout0)
      else
        match loads output with
        | some v => (Sum.inl (.success v), stdout0)
        | none => (Sum.inl (.outputFormatError output safe_code), stdout0)

/-- The backquote character, the only character of code-fence markup. -/
def backquoteChar : Char := Char.ofNat 96

/-- Whether a script text contains any code-fence markup character. -/
def containsFenceChar (s : String) : Bool :=
  s.data.any (fun c => c = backquoteChar)

/-- A pandas DataFrame as these claims need it: labelled columns over rows
of cells; a cell is `none` for NaN, otherwise the cell's string rendering.
Tables enter the pipeline from `pd.read_html`. -/
structure PyTable where
  cols : List String
  rows : List (List (Option String))
  deriving DecidableEq

/-- Label lookup `row[df.columns.indexOf c]` for one row: the cell under the
first column labelled `c` (NaN when absent). -/
def getCell (cols : List String) (row : List (Option String)) (c : String) :
    Option String :=
  (row.get? (cols.indexOf c)).join

/-- Replace the element at index `i` by its image under `f` (identity when
out of range). -/
def updateAt {α : Type} : Nat → (α → α) → List α → List α
  | _, _, [] => []
  | 0, f, x :: xs => f x :: xs
  | n + 1, f, x :: xs => x :: updateAt n f xs

/-- `df[c] = f(df[c])`: cell-wise update of the column labelled `c`. -/
def mapColumn (c : String) (f : Option String → Option String) (t : PyTable) :
    PyTable :=
  ⟨t.cols, t.rows.map (updateAt (t.cols.indexOf c) f)⟩

/-- `fillna('')` followed by `astype(str)` on one cell. -/
def fillCell (c : Option String) : String := c.getD ""

/-- The regex class `[\d\.]` of `clean_numeric_columns` (line 295). -/
def digitOrDot (c : Char) : Bool := c.isDigit || c = '.'

/-- The regex class `[\d,\.]` of `scrape_highest_grossing` (line 56). -/
def digitCommaDot (c : Char) : Bool := c.isDigit || c = ',' || c = '.'

/-- `.str.extract(r'([X]+)')[0]` on one cell value: the first maximal run of
characters of the class `X`, or `none` (NaN) when no character matches. -/
def extractRun (p : Char → Bool) : List Char → Option (List Char)
  | [] => none
  | c :: rest => if p c then some (c :: rest.takeWhile p) else extractRun p rest

/-- Whether `pd.to_numeric` resolves a digits-and-dots string to a number:
nonempty, at least one digit, at most one decimal point. -/
def validNumeric (l : List Char) : Bool :=
  !l.isEmpty && l.any Char.isDigit && decide (l.countP (fun c => c = '.') ≤ 1)

/-- `pd.to_numeric(errors='coerce')` on one extracted value: the numeric
literal is kept (as its canonical string) when it resolves, NaN otherwise. -/
def toNumericCoerce (l : List Char) : Option String :=
  if validNumeric l then some ⟨l⟩ else none

/-- One cell of `clean_numeric_columns` (lines 291-297): `fillna('') →
astype(str) → .str.extract(r'([\d\.]+)')[0] → pd.to_numeric(coerce)`. -/
def cleanCellG (c : Option String) : Option String :=
  match extractRun digitOrDot (fillCell c).data with
  | none => none
  | some run => toNumericCoerce run

/-- `clean_numeric_columns(df, cols)` (lines 287-298): coerce each listed
column that is present in the table. -/
def clean_numeric_columns (t : PyTable) (cs : List String) : PyTable :=
  cs.foldl
    (fun acc c => if acc.cols.contains c then mapColumn c cleanCellG acc else acc) t

/-- `df.dropna(subset=subset)`: pandas raises a `KeyError` when a subset
label is missing from the columns; otherwise it keeps exactly the rows
whose subset cells are all non-NaN. -/
def dropnaSubset (t : PyTable) (subset : List String) : Except String PyTable :=
  if subset.all (fun c => t.cols.contains c) then
    Except.ok ⟨t.cols,
      t.rows.filter (fun r => subset.all (fun c => (getCell t.cols r c).isSome))⟩
  else Except.error "KeyError"

/-- The three column names targeted by the injected cleaning block. -/
def keyCols : List String := ["Worldwide gross", "Rank", "Peak"]

/-- Table semantics of the injected cleaning block (lines 308-313): if any
of the three key columns is present, clean them and drop rows via
`dropna(subset=keyCols)` — which raises when not all three are present. -/
def injected_block (df : PyTable) : Except String PyTable :=
  if keyCols.any (fun c => df.cols.contains c) then
    dropnaSubset (clean_numeric_columns df keyCols) keyCols
  else Except.ok df

/-- Spec-side description of one cleaned row (refinement target for C5):
each cell under one of the three key columns is coerced, every other cell
kept. -/
def specCleanRow (cols : List String) (row : List (Option String)) :
    List (Option String) :=
  List.zipWith (fun c x => if c ∈ keyCols then cleanCellG x else x) cols row

/-- Spec-side row-keeping predicate: all three key cells resolved. -/
def specRowKept (cols : List String) (row : List (Option String)) : Bool :=
  keyCols.all (fun c => (getCell cols row c).isSome)

/-- Spec-side description of the cleaned table: key columns coerced
cell-wise, and exactly the rows in which some key cell did not resolve
dropped. -/
def spec_cleaned_table (df : PyTable) : PyTable :=
  ⟨df.cols, (df.rows.map (specCleanRow df.cols)).filter (specRowKept df.cols)⟩

/-- Line 39: whether a scraped table carries one of the two gross columns. -/
def qualifies (t : PyTable) : Bool :=
  t.cols.contains "Worldwide gross" || t.cols.contains "Gross"

/-- The selection loop of lines 37-41: the first qualifying table in page
order, if any. -/
def pick_table : List PyTable → Option PyTable
  | [] => none
  | t :: ts => if qualifies t then some t else pick_table ts

/-- Line 47: `df.columns = [col.strip() for col in df.columns]`. -/
def strip_columns (t : PyTable) : PyTable :=
  ⟨t.cols.map pyStrip, t.rows⟩

/-- Lines 48-49: rename `Gross` to `Worldwide gross` when present. -/
def rename_gross (t : PyTable) : PyTable :=
  if t.cols.contains "Gross" then
    ⟨t.cols.map (fun c => if c = "Gross" then "Worldwide gross" else c), t.rows⟩
  else t

/-- One cell of the gross cleaning of lines 52-59: `fillna('') →
astype(str) → .str.extract(r'([\d,\.]+)')[0] → .str.replace(',', '') →
pd.to_numeric(coerce)`. -/
def cleanCellScrape (c : Option String) : Option String :=
  match extractRun digitCommaDot (fillCell c).data with
  | none => none
  | some run => toNumericCoerce (run.filter (fun c => c ≠ ','))

/-- Line 65: `pd.to_numeric(df['Year'], errors='coerce')` on one raw cell
(numeric literals modelled as digit/dot strings, surrounding whitespace
tolerated). -/
def toNumericCell (c : Option String) : Option String :=
  c.bind (fun s => toNumericCoerce (pyStripL s.data))

/-- `scrape_highest_grossing(url)` (lines 33-69), applied to the list of
tables `pd.read_html(url)` produced, in page order: pick the first
qualifying table, standardize and rename columns, clean the gross column,
drop unresolved rows, coerce a `Year` column when present, drop again. -/
def scrape_highest_grossing (tables : List PyTable) : Except String PyTable :=
  match pick_table tables with
  | none => Except.error "No table with 'Worldwide gross' found."
  | some t => do
    let df1 := rename_gross (strip_columns t)
    let df2 := mapColumn "Worldwide gross" cleanCellScrape df1
    let df3 ← dropnaSubset df2 ["Worldwide gross"]
    let df4 := if df3.cols.contains "Year" then mapColumn "Year" toNumericCell df3
      else df3
    let df5 ← dropnaSubset df4 ["Worldwide gross"]
    return df5

/-- The post-selection cleaning pipeline of `scrape_highest_grossing` as a
total function on the selected table (C10's "after cleaning"). -/
def clean_selected (t : PyTable) : PyTable :=
  let df1 := rename_gross (strip_columns t)
  let df2 := mapColumn "Worldwide gross" cleanCellScrape df1
  let df3 : PyTable := ⟨df2.cols,
    df2.rows.filter (fun r => (getCell df2.cols r "Worldwide gross").isSome)⟩
  let df4 := if df3.cols.contains "Year" then mapColumn "Year" toNumericCell df3
    else df3
  ⟨df4.cols, df4.rows.filter (fun r => (getCell df4.cols r "Worldwide gross").isSome)⟩

/-- Helper: the result component of `execute_python_code` does not depend on
the incoming stdout target. -/
theorem execute_result_indep {V σ σ' α : Type}
    (execFn : String → List (String × PyBinding V) → ExecOutcome)
    (loads : String → Option α)
    (code : String) (ctx : List (String × V)) (s : σ) (t : σ') :
    (execute_python_code execFn loads code ctx s).1
      = (execute_python_code execFn loads code ctx t).1 := by
  unfold execute_python_code
  dsimp only
  split
  · split <;> rfl
  · split
    · rfl
    · split <;> rfl

/-- Helper: on every path (success, any error dictionary, and even a
propagating non-`Exception` exception) the `finally` block restores the
saved stdout target. -/
theorem execute_stdout_restored {V σ α : Type}
    (execFn : String → List (String × PyBinding V) → ExecOutcome)
    (loads : String → Option α)
    (code : String) (ctx : List (String × V)) (s : σ) :
    (execute_python_code execFn loads code ctx s).2 = s := by
  unfold execute_python_code
  dsimp only
  split
  · split <;> rfl
  · split
    · rfl
    · split <;> rfl

/-- C1 (counterexample): the claim says `execute` catches every exception
class raised while running the script.  It does not: `except Exception`
does not catch `BaseException`-only classes.  The script
`__import__('sys').exit()` — `__import__` is allow-listed — raises
`SystemExit`, which derives from `BaseException` but not from `Exception`,
and the exception propagates past the `execute` boundary (the `Sum.inr`
outcome) instead of becoming a ScriptError-shaped result. -/
theorem C1_counterexample_base_exception_propagates :
    (@execute_python_code Unit Nat Unit
        (fun _ _ => ExecOutcome.exn ⟨false, "SystemExit"⟩) (fun _ => none)
        "__import__('sys').exit()" [] 0).1
      = Sum.inr ⟨false, "SystemExit"⟩ := rfl

/-- C1 (amended): for every script, context and stdout state, if running the
patched script raises an exception whose class derives from `Exception` —
which includes the `NameError` raised by referencing a name outside the
allow-listed scope — then `execute_python_code` returns a ScriptError-shaped
result instead of letting the exception propagate. -/
theorem C1_exception_subclasses_caught {V σ α : Type}
    (execFn : String → List (String × PyBinding V) → ExecOutcome)
    (loads : String → Option α)
    (code : String) (ctx : List (String × V)) (s : σ) (e : PyExc)
    (h : execFn (injectCleaning (stripFences code)) (build_exec_globals ctx)
        = ExecOutcome.exn e)
    (hE : e.isExceptionSubclass = true) :
    ∃ m c, (execute_python_code execFn loads code ctx s).1
        = Sum.inl (ExecutionResult.scriptError m c) := by
  refine ⟨"Code execution failed: " ++ e.msg, stripFences code, ?_⟩
  unfold execute_python_code
  dsimp only
  rw [h]
  simp [hE]

/-- C1 (witness): the amended theorem applied at a concrete input — a
script raising a `NameError`-style `Exception` subclass is converted to a
ScriptError-shaped result. -/
theorem C1_exception_subclasses_caught_witness :
    ∃ m c, (@execute_python_code Unit Nat Unit
        (fun _ _ => ExecOutcome.exn ⟨true, "name 'os' is not defined"⟩)
        (fun _ => none) "os.system('ls')" [] 0).1
      = Sum.inl (ExecutionResult.scriptError m c) :=
  C1_exception_subclasses_caught _ _ "os.system('ls')" [] 0
    ⟨true, "name 'os' is not defined"⟩ rfl rfl

/-- C2 (evaluation at the failing input): for Scenario A's exact script
`print(json.dumps({"a":1}))`, the fence-stripping step — Python's
`str.strip('```python')` strips a character *set* — removes the leading
`p`, so `execute` runs `rint(json.dumps({"a":1}))`, which raises a
`NameError` and yields a ScriptError-shaped result, not
Success({"a": 1}). -/
theorem C2_scenario_a_script_is_mangled :
    stripFences "print(json.dumps(\x7b\"a\":1\x7d))"
      = "rint(json.dumps(\x7b\"a\":1\x7d))" ∧
    (@execute_python_code Unit Nat Unit
        (fun _ _ => ExecOutcome.exn ⟨true, "name 'rint' is not defined"⟩)
        (fun _ => none) "print(json.dumps(\x7b\"a\":1\x7d))" [] 0).1
      = Sum.inl (ExecutionResult.scriptError
          "Code execution failed: name 'rint' is not defined"
          "rint(json.dumps(\x7b\"a\":1\x7d))") := by
  exact ⟨by decide, by decide⟩

/-- C3 (evaluation at the failing input): the script `print(1)` contains no
code-fence markup (no backtick), yet the fence-stripping step is not the
identity on it: `str.strip('```python')` treats its argument as a character
set, so the leading `p` of `print` is removed. -/
theorem C3_fence_strip_not_identity :
    containsFenceChar "print(1)" = false ∧
    stripFences "print(1)" = "rint(1)" ∧
    stripFences "print(1)" ≠ "print(1)" := by
  exact ⟨by decide, by decide, by decide⟩

/-- C6 (counterexample): for the script
`df = scrape_data("http://x")\nx = 1/0` — on which the cleaning-block
injection fires, so the patched text differs from the stripped text — a
raising execution returns a ScriptError carrying the *pre-injection*
script text (`cleaned_code`, line 334 of llm_tools.py), which is not the
post-injection text that was actually run. -/
theorem C6_counterexample_error_carries_preinjection_text :
    (@execute_python_code Unit Nat Unit
        (fun _ _ => ExecOutcome.exn ⟨true, "division by zero"⟩) (fun _ => none)
        "df = scrape_data(\"http://x\")\nx = 1/0" [] 0).1
      = Sum.inl (ExecutionResult.scriptError "Code execution failed: division by zero"
          "df = scrape_data(\"http://x\")\nx = 1/0") ∧
    ("df = scrape_data(\"http://x\")\nx = 1/0" : String)
      ≠ injectCleaning (stripFences "df = scrape_data(\"http://x\")\nx = 1/0") := by
  exact ⟨by decide, by decide⟩

/-- C6 (amended): whenever execution of the patched script raises an
`Exception`-subclass exception, the ScriptError result carries the
exception's message and the *pre-injection* (fence-stripped) script text;
it equals the post-injection text only when the injection did not fire. -/
theorem C6_script_error_payload {V σ α : Type}
    (execFn : String → List (String × PyBinding V) → ExecOutcome)
    (loads : String → Option α)
    (code : String) (ctx : List (String × V)) (s : σ) (e : PyExc)
    (h : execFn (injectCleaning (stripFences code)) (build_exec_globals ctx)
        = ExecOutcome.exn e)
    (hE : e.isExceptionSubclass = true) :
    (execute_python_code execFn loads code ctx s).1
      = Sum.inl (ExecutionResult.scriptError ("Code execution failed: " ++ e.msg)
          (stripFences code)) := by
  unfold execute_python_code
  dsimp only
  rw [h]
  simp [hE]

/-- C6 (witness): the amended theorem applied at a concrete input. -/
theorem C6_script_error_payload_witness :
    (@execute_python_code Unit Nat Unit
        (fun _ _ => ExecOutcome.exn ⟨true, "boom"⟩) (fun _ => none)
        "x = 1/0" [] 7).1
      = Sum.inl (ExecutionResult.scriptError "Code execution failed: boom"
          (stripFences "x = 1/0")) :=
  C6_script_error_payload _ _ "x = 1/0" [] 7 ⟨true, "boom"⟩ rfl rfl

/-- C8: after every call to `execute_python_code` — Success, ScriptError,
OutputFormatError, NoOutputError, and even a propagating
non-`Exception` exception — the process stdout target equals the target
saved before the call: the redirection lasts only for the duration of the
execution (`finally: sys.stdout = old_stdout`). -/
theorem C8_stdout_restoration {V σ α : Type}
    (execFn : String → List (String × PyBinding V) → ExecOutcome)
    (loads : String → Option α)
    (code : String) (ctx : List (String × V)) (s : σ) :
    (execute_python_code execFn loads code ctx s).2 = s :=
  execute_stdout_restored execFn loads code ctx s

/-- C9: calling `execute_python_code` twice with identical script text and
identical context objects yields the same result — the result of the second
call (run in the stdout state the first call left behind) is equal to the
first call's result, and the stdout state after both calls is the initial
one.  The scope is rebuilt from scratch inside each call and the stdout
redirection leaves no cross-call state. -/
theorem C9_two_calls_agree {V σ α : Type}
    (execFn : String → List (String × PyBinding V) → ExecOutcome)
    (loads : String → Option α)
    (code : String) (ctx : List (String × V)) (s : σ) :
    (execute_python_code execFn loads code ctx
        ((execute_python_code execFn loads code ctx s).2)).1
      = (execute_python_code execFn loads code ctx s).1 ∧
    (execute_python_code execFn loads code ctx
        ((execute_python_code execFn loads code ctx s).2)).2 = s := by
  constructor
  · exact execute_result_indep execFn loads code ctx _ s
  · rw [execute_stdout_restored, execute_stdout_restored]

/-- Helper: `dropLit` succeeds on a literal prefix. -/
theorem dropLit_append_self (pat r : List Char) : dropLit pat (pat ++ r) = some r := by
  induction pat with
  | nil => rfl
  | cons c cs ih => simp [dropLit, ih]

/-- Helper: a successful `dropLit` exposes the list as pattern ++ rest. -/
theorem eq_append_of_dropLit {pat l r : List Char} (h : dropLit pat l = some r) :
    l = pat ++ r := by
  induction pat generalizing l with
  | nil =>
    simp only [dropLit, Option.some.injEq] at h
    simp [h]
  | cons c cs ih =>
    cases l with
    | nil => simp [dropLit] at h
    | cons d ds =>
      by_cases hc : c = d
      · subst hc
        simp only [dropLit, if_pos rfl] at h
        simpa using ih h
      · simp [dropLit, hc] at h

/-- Helper: `takeWhile` passes over a block whose characters all satisfy the
predicate. -/
theorem takeWhile_append_all {p : Char → Bool} {a : List Char} (b : List Char)
    (h : ∀ c ∈ a, p c = true) : (a ++ b).takeWhile p = a ++ b.takeWhile p := by
  induction a with
  | nil => rfl
  | cons c cs ih =>
    have hc := h c (by simp)
    have ha := ih (fun x hx => h x (by simp [hx]))
    simp [List.takeWhile_cons, hc, ha]

/-- Helper: `dropWhile` passes over a block whose characters all satisfy the
predicate. -/
theorem dropWhile_append_all {p : Char → Bool} {a : List Char} (b : List Char)
    (h : ∀ c ∈ a, p c = true) : (a ++ b).dropWhile p = b.dropWhile p := by
  induction a with
  | nil => rfl
  | cons c cs ih =>
    have hc := h c (by simp)
    have ha := ih (fun x hx => h x (by simp [hx]))
    simp [List.dropWhile_cons, hc, ha]

/-- Helper: the last `x` of `u ++ [x]` is at index `u.length`, whatever `u`
contains. -/
theorem lastIdxAux_append_last (x : Char) (u : List Char) :
    ∀ i acc, lastIdxAux x (u ++ [x]) i acc = some (i + u.length) := by
  induction u with
  | nil => intro i acc; simp [lastIdxAux]
  | cons c cs ih =>
    intro i acc
    rw [List.cons_append, lastIdxAux, ih]
    simp only [List.length_cons, Option.some.injEq]
    omega

/-- Helper: `lastIdx` of a list ending in its target. -/
theorem lastIdx_append_last (x : Char) (u : List Char) :
    lastIdx x (u ++ [x]) = some u.length := by
  simpa using lastIdxAux_append_last x u 0 none

/-- Helper: a match at the head is the leftmost match. -/
theorem firstMatchGen_cons_some {m : List Char → Option Nat} {c : Char}
    {rest : List Char} {k : Nat} (h : m (c :: rest) = some k) :
    firstMatchGen m (c :: rest) = some (0, k) := by
  simp [firstMatchGen, h]

/-- Helper: no match at the head defers to the tail's leftmost match. -/
theorem firstMatchGen_cons_none {m : List Char → Option Nat} {c : Char}
    {rest : List Char} (h : m (c :: rest) = none) :
    firstMatchGen m (c :: rest)
      = (firstMatchGen m rest).map (fun p => (p.1 + 1, p.2)) := by
  simp [firstMatchGen, h]

/-- Helper: scanning a region with no match start shifts the leftmost match
of the remainder. -/
theorem firstMatchGen_append_shift (m : List Char → Option Nat) (a b : List Char)
    (h : ∀ i < a.length, m ((a ++ b).drop i) = none) :
    firstMatchGen m (a ++ b)
      = (firstMatchGen m b).map (fun p => (p.1 + a.length, p.2)) := by
  induction a with
  | nil =>
    cases fmb : firstMatchGen m b <;> simp [fmb]
  | cons c a' ih =>
    have h0 : m (c :: (a' ++ b)) = none := by simpa using h 0 (by simp)
    rw [List.cons_append, firstMatchGen_cons_none h0,
      ih (fun i hi => by simpa using h (i + 1) (by simp; omega))]
    cases fmb : firstMatchGen m b
    · simp
    · simp
      omega

/-- Helper: the scrape-assignment matcher at the head of a statement
`df = scrape_data(` ++ u ++ `)` followed by a line end matches exactly the
statement (length `18 + u.length`): the greedy `.*\)` stops at the last `)`
of the line, which is the statement's closing parenthesis. -/
theorem matchScrapeAt_stmt (u post : List Char) (hu : ∀ c ∈ u, c ≠ '\n')
    (hpost : post = [] ∨ ∃ p', post = '\n' :: p') :
    matchScrapeAt ("df = scrape_data(".data ++ (u ++ ')' :: post))
      = some (18 + u.length) := by
  have hall : ∀ c ∈ u, nonNl c = true := by
    intro c hc
    simp [nonNl, hu c hc]
  have hline : (u ++ ')' :: post).takeWhile nonNl = u ++ [')'] := by
    rw [takeWhile_append_all _ hall]
    rcases hpost with rfl | ⟨p', rfl⟩ <;> rfl
  have key : matchScrapeAt ("df = scrape_data(".data ++ (u ++ ')' :: post))
      = match lastIdx ')' ((u ++ ')' :: post).takeWhile nonNl) with
        | none => none
        | some j => some (2 + 1 + 1 + 1 + 12 + j + 1) := rfl
  rw [key, hline, lastIdx_append_last]
  simp only [Option.some.injEq]
  omega

/-- C4: for every script of the form `pre ++ "df = scrape_data(" ++ u ++ ")"
++ post` — the argument `u` containing no newline, the statement ending its
line, and no match of the injection regex starting inside `pre` — the
patched script that `execute` runs is the same script with the cleaning
block inserted immediately after that statement: the substitution fires
exactly once (count=1, first match), `pre` and `post` are reproduced
character for character, so every other line keeps its original relative
order, unchanged. -/
theorem C4_injection_after_first_scrape_stmt (pre u post : List Char)
    (hu : ∀ c ∈ u, c ≠ '\n')
    (hpost : post = [] ∨ ∃ p', post = '\n' :: p')
    (hpre : ∀ i < pre.length,
      matchScrapeAt ((pre ++ ("df = scrape_data(".data ++ (u ++ ')' :: post))).drop i)
        = none) :
    injectCleaningL (pre ++ ("df = scrape_data(".data ++ (u ++ ')' :: post)))
      = pre ++ ("df = scrape_data(".data ++ (u ++ [')']))
        ++ '\n' :: injected_cleaning.data ++ post := by
  have hm : matchScrapeAt ("df = scrape_data(".data ++ (u ++ ')' :: post))
      = some (18 + u.length) := matchScrapeAt_stmt u post hu hpost
  have hfirst : firstMatchGen matchScrapeAt
      (pre ++ ("df = scrape_data(".data ++ (u ++ ')' :: post)))
      = some (pre.length, 18 + u.length) := by
    rw [firstMatchGen_append_shift _ _ _ hpre]
    rw [show ("df = scrape_data(".data ++ (u ++ ')' :: post))
        = 'd' :: ('f' :: (" = scrape_data(".data ++ (u ++ ')' :: post))) from rfl]
    rw [firstMatchGen_cons_some (by rw [← show ("df = scrape_data(".data ++ (u ++ ')' :: post)) = 'd' :: ('f' :: (" = scrape_data(".data ++ (u ++ ')' :: post))) from rfl]; exact hm)]
    simp
  have hstmt : ("df = scrape_data(".data ++ (u ++ ')' :: post))
      = ("df = scrape_data(".data ++ (u ++ [')'])) ++ post := by
    simp
  have h17 : ("df = scrape_data(".data).length = 17 := by decide
  have hlen : ("df = scrape_data(".data ++ (u ++ [')'])).length = 18 + u.length := by
    simp [List.length_append, h17]
    omega
  unfold injectCleaningL
  rw [hfirst]
  dsimp only
  rw [hstmt, ← List.append_assoc]
  have hlen2 : (pre ++ ("df = scrape_data(".data ++ (u ++ [')']))).length
      = pre.length + (18 + u.length) := by
    rw [List.length_append, hlen]
  rw [List.take_left' hlen2, List.drop_left' hlen2]

/-- Helper: `get?` after `updateAt` — the updated index is mapped, all other
indices are untouched. -/
theorem updateAt_get? {α : Type} (f : α → α) :
    ∀ (l : List α) (i n : Nat),
      (updateAt i f l).get? n = if n = i then (l.get? n).map f else l.get? n := by
  intro l
  induction l with
  | nil => intro i n; simp [updateAt]
  | cons x xs ih =>
    intro i n
    cases i with
    | zero =>
      cases n with
      | zero => simp [updateAt]
      | succ n' => simp [updateAt]
    | succ i' =>
      cases n with
      | zero => simp [updateAt]
      | succ n' =>
        simp only [updateAt, List.get?_cons_succ]
        rw [ih i' n']
        by_cases h : n' = i'
        · subst h; simp
        · rw [if_neg h, if_neg (by omega)]

/-- Helper: under distinct labels, the index of a label found by `get?` is
its `indexOf`. -/
theorem eq_indexOf_of_get? {cols : List String} {n : Nat} {c : String}
    (hnd : cols.Nodup) (hn : cols.get? n = some c) : n = cols.indexOf c := by
  have hmem : c ∈ cols := List.get?_mem hn
  have hlt : n < cols.length := by
    rcases List.get?_eq_some.mp hn with ⟨h, _⟩
    exact h
  apply List.getElem?_inj hlt hnd
  rw [← List.get?_eq_getElem?, ← List.get?_eq_getElem?, hn, List.indexOf_get? hmem]

/-- Helper: a label read by `get?` at a different index than another label's
`indexOf` when the labels differ. -/
theorem ne_indexOf_of_get? {cols : List String} {n : Nat} {c d : String}
    (hn : cols.get? n = some c) (hd : d ∈ cols) (hcd : c ≠ d) :
    n ≠ cols.indexOf d := by
  intro h
  rw [h, List.indexOf_get? hd] at hn
  injection hn with h'
  exact hcd h'.symm

/-- Helper (C5 core, per row): updating the three key columns in sequence
equals the spec-side zipWith description of the cleaned row, for a table
with distinct column labels carrying all three. -/
theorem updateAt_key_cols_eq_specCleanRow (cols : List String) (hnd : cols.Nodup)
    (h1 : "Worldwide gross" ∈ cols) (h2 : "Rank" ∈ cols) (h3 : "Peak" ∈ cols)
    (row : List (Option String)) (hlen : row.length = cols.length) :
    updateAt (cols.indexOf "Peak") cleanCellG
      (updateAt (cols.indexOf "Rank") cleanCellG
        (updateAt (cols.indexOf "Worldwide gross") cleanCellG row))
      = specCleanRow cols row := by
  rw [List.ext_get?_iff]
  intro n
  rw [specCleanRow, List.get?_zipWith']
  simp only [updateAt_get?]
  rcases hcn : cols.get? n with _ | c
  · have hn : cols.length ≤ n := List.get?_eq_none.mp hcn
    have hrn : row.get? n = none := List.get?_eq_none.mpr (by omega)
    have hW : n ≠ cols.indexOf "Worldwide gross" := by
      have := List.indexOf_lt_length.mpr h1; omega
    have hR : n ≠ cols.indexOf "Rank" := by
      have := List.indexOf_lt_length.mpr h2; omega
    have hP : n ≠ cols.indexOf "Peak" := by
      have := List.indexOf_lt_length.mpr h3; omega
    simp [hrn, hW, hR, hP]
    omega
  · have hlt : n < cols.length := by
      rcases List.get?_eq_some.mp hcn with ⟨h, _⟩
      exact h
    rcases hrn : row.get? n with _ | x
    · exact absurd (List.get?_eq_none.mp hrn) (by omega)
    · by_cases hc : c ∈ keyCols
      · rcases (by simpa [keyCols] using hc :
            c = "Worldwide gross" ∨ c = "Rank" ∨ c = "Peak") with rfl | rfl | rfl
        · have hW := eq_indexOf_of_get? hnd hcn
          have hR := ne_indexOf_of_get? hcn h2 (by decide)
          have hP := ne_indexOf_of_get? hcn h3 (by decide)
          rw [if_neg hP, if_neg hR, if_pos hW]
          simp [keyCols]
        · have hR := eq_indexOf_of_get? hnd hcn
          have hW := ne_indexOf_of_get? hcn h1 (by decide)
          have hP := ne_indexOf_of_get? hcn h3 (by decide)
          rw [if_neg hP, if_pos hR, if_neg hW]
          simp [keyCols]
        · have hP := eq_indexOf_of_get? hnd hcn
          have hW := ne_indexOf_of_get? hcn h1 (by decide)
          have hR := ne_indexOf_of_get? hcn h2 (by decide)
          rw [if_pos hP, if_neg hR, if_neg hW]
          simp [keyCols]
      · have hW := ne_indexOf_of_get? hcn h1 (by rintro rfl; simp [keyCols] at hc)
        have hR := ne_indexOf_of_get? hcn h2 (by rintro rfl; simp [keyCols] at hc)
        have hP := ne_indexOf_of_get? hcn h3 (by rintro rfl; simp [keyCols] at hc)
        rw [if_neg hP, if_neg hR, if_neg hW]
        simp [hc]

/-- Helper: with all three key columns present, `clean_numeric_columns`
updates the three columns in sequence over every row. -/
theorem clean_numeric_columns_keyCols (df : PyTable)
    (h1 : "Worldwide gross" ∈ df.cols) (h2 : "Rank" ∈ df.cols)
    (h3 : "Peak" ∈ df.cols) :
    clean_numeric_columns df keyCols
      = ⟨df.cols, df.rows.map (fun r =>
          updateAt (df.cols.indexOf "Peak") cleanCellG
            (updateAt (df.cols.indexOf "Rank") cleanCellG
              (updateAt (df.cols.indexOf "Worldwide gross") cleanCellG r)))⟩ := by
  simp [clean_numeric_columns, keyCols, mapColumn, h1, h2, h3,
    List.map_map, Function.comp_def]

/-- C5 (counterexample): the claim says the injected block executes without
raising whenever at least one of the three key columns is present.  For a
table with only a `Rank` column, the block's
`df.dropna(subset=['Worldwide gross', 'Rank', 'Peak'])` raises a `KeyError`
(pandas requires every subset label to be present). -/
theorem C5_counterexample_partial_key_columns :
    (PyTable.mk ["Rank"] [[some "1"]]).cols.contains "Rank" = true ∧
    injected_block ⟨["Rank"], [[some "1"]]⟩ = Except.error "KeyError" :=
  ⟨rfl, rfl⟩

/-- C5 (amended): for every table with distinct column labels and rectangular
rows in which *all three* of `Worldwide gross`, `Rank`, `Peak` are present,
the injected cleaning block executes without raising; it coerces each of the
three columns cell-wise — extracting the first digits-and-dot run and
resolving it to a number, NaN otherwise — and drops exactly the rows in
which one of the three did not resolve. -/
theorem C5_cleaning_block_all_key_columns (df : PyTable)
    (hnd : df.cols.Nodup)
    (hlen : ∀ r ∈ df.rows, r.length = df.cols.length)
    (h1 : "Worldwide gross" ∈ df.cols) (h2 : "Rank" ∈ df.cols)
    (h3 : "Peak" ∈ df.cols) :
    injected_block df = Except.ok (spec_cleaned_table df) := by
  have hc1 : df.cols.contains "Worldwide gross" = true := List.elem_iff.mpr h1
  have hc2 : df.cols.contains "Rank" = true := List.elem_iff.mpr h2
  have hc3 : df.cols.contains "Peak" = true := List.elem_iff.mpr h3
  have hany : keyCols.any (fun c => df.cols.contains c) = true := by
    simp [keyCols]
    exact Or.inl h1
  have hall : keyCols.all (fun c => df.cols.contains c) = true := by
    simp [keyCols]
    exact ⟨h1, h2, h3⟩
  rw [injected_block, if_pos hany, clean_numeric_columns_keyCols df h1 h2 h3,
    dropnaSubset]
  rw [if_pos hall]
  have hmap : df.rows.map (fun r =>
        updateAt (df.cols.indexOf "Peak") cleanCellG
          (updateAt (df.cols.indexOf "Rank") cleanCellG
            (updateAt (df.cols.indexOf "Worldwide gross") cleanCellG r)))
      = df.rows.map (specCleanRow df.cols) :=
    List.map_congr_left (fun r hr =>
      updateAt_key_cols_eq_specCleanRow df.cols hnd h1 h2 h3 r (hlen r hr))
  unfold spec_cleaned_table
  rw [hmap]
  rfl

/-- C5 (witness): the amended theorem applied to a concrete table with the
three key columns and one extra column; the row whose `Rank` cell does not
resolve is dropped. -/
theorem C5_cleaning_block_all_key_columns_witness :
    injected_block ⟨["Rank", "Peak", "Worldwide gross", "Title"],
        [[some "1", some "2", some "$3,000", some "A"],
         [some "x", some "2", some "5", some "B"]]⟩
      = Except.ok (spec_cleaned_table ⟨["Rank", "Peak", "Worldwide gross", "Title"],
        [[some "1", some "2", some "$3,000", some "A"],
         [some "x", some "2", some "5", some "B"]]⟩) :=
  C5_cleaning_block_all_key_columns _ (by decide) (by decide) (by decide) (by decide)
    (by decide)

/-- Helper: the selection loop of lines 37-41 is the first-match search. -/
theorem pick_table_eq_find? (tables : List PyTable) :
    pick_table tables = tables.find? qualifies := by
  induction tables with
  | nil => rfl
  | cons t ts ih =>
    by_cases h : qualifies t = true
    · rw [pick_table, if_pos h, List.find?_cons_of_pos _ h]
    · rw [pick_table, if_neg h, List.find?_cons_of_neg _ h, ih]

/-- Helper: a qualifying table still carries the `Worldwide gross` column
after column stripping and the `Gross` rename. -/
theorem wg_mem_selected {t : PyTable} (hq : qualifies t = true) :
    "Worldwide gross" ∈ (rename_gross (strip_columns t)).cols := by
  rw [qualifies, Bool.or_eq_true] at hq
  have hWs : pyStrip "Worldwide gross" = "Worldwide gross" := by decide
  have hGs : pyStrip "Gross" = "Gross" := by decide
  rcases hq with h | h
  · have hm : "Worldwide gross" ∈ t.cols.map pyStrip :=
      List.mem_map.mpr ⟨"Worldwide gross", List.elem_iff.mp h, hWs⟩
    unfold rename_gross strip_columns
    dsimp only
    split
    · exact List.mem_map.mpr ⟨"Worldwide gross", hm, by decide⟩
    · exact hm
  · have hm : "Gross" ∈ t.cols.map pyStrip :=
      List.mem_map.mpr ⟨"Gross", List.elem_iff.mp h, hGs⟩
    unfold rename_gross strip_columns
    dsimp only
    split
    · exact List.mem_map.mpr ⟨"Gross", hm, by decide⟩
    · rename_i hcond
      exact absurd (List.elem_iff.mpr hm) hcond

/-- Helper: `dropna(subset=['Worldwide gross'])` succeeds when the column is
present, and keeps exactly the rows whose gross cell is non-NaN. -/
theorem dropnaSubset_wg_ok (t : PyTable) (h : "Worldwide gross" ∈ t.cols) :
    dropnaSubset t ["Worldwide gross"]
      = Except.ok ⟨t.cols,
          t.rows.filter (fun r => (getCell t.cols r "Worldwide gross").isSome)⟩ := by
  unfold dropnaSubset
  rw [if_pos (by simpa using h)]
  congr 1
  congr 1
  apply List.filter_congr
  intro r hr
  simp

/-- C10: if no scraped table carries a `Worldwide gross` or `Gross` column,
`scrape_highest_grossing` raises the `ValueError` instead of returning a
table; and when some table qualifies, the returned table is the *first*
qualifying table in page order, run through the cleaning pipeline. -/
theorem C10_scrape_first_qualifying_table (tables : List PyTable) :
    (tables.find? qualifies = none →
      scrape_highest_grossing tables
        = Except.error "No table with 'Worldwide gross' found.") ∧
    (∀ t, tables.find? qualifies = some t →
      scrape_highest_grossing tables = Except.ok (clean_selected t)) := by
  constructor
  · intro hf
    unfold scrape_highest_grossing
    rw [pick_table_eq_find?, hf]
  · intro t hf
    have hq : qualifies t = true := List.find?_some hf
    have hwg1 : "Worldwide gross" ∈ (rename_gross (strip_columns t)).cols :=
      wg_mem_selected hq
    unfold scrape_highest_grossing
    rw [pick_table_eq_find?, hf]
    unfold clean_selected
    dsimp only
    set df2 := mapColumn "Worldwide gross" cleanCellScrape
      (rename_gross (strip_columns t)) with hdf2
    have hwg2 : "Worldwide gross" ∈ df2.cols := hwg1
    rw [dropnaSubset_wg_ok _ hwg2]
    set df3 : PyTable := ⟨df2.cols,
      df2.rows.filter (fun r => (getCell df2.cols r "Worldwide gross").isSome)⟩
      with hdf3
    set df4 := if df3.cols.contains "Year" then mapColumn "Year" toNumericCell df3
      else df3 with hdf4
    have hwg4 : "Worldwide gross" ∈ df4.cols := by
      rw [hdf4]
      split <;> exact hwg2
    show Except.bind (dropnaSubset df4 ["Worldwide gross"]) (fun df5 => pure df5) = _
    rw [dropnaSubset_wg_ok _ hwg4]
    rfl

/-- Helper: taking past an appended block. -/
theorem take_append_add (a b : List Char) (j : Nat) :
    (a ++ b).take (a.length + j) = a ++ b.take j := by
  induction a with
  | nil => simp
  | cons c a' ih =>
    rw [List.cons_append, List.length_cons,
      show a'.length + 1 + j = (a'.length + j) + 1 by omega,
      List.take_succ_cons, ih, List.cons_append]

/-- Helper: dropping past an appended block. -/
theorem drop_append_add (a b : List Char) (j : Nat) :
    (a ++ b).drop (a.length + j) = b.drop j := by
  induction a with
  | nil => simp
  | cons c a' ih =>
    rw [List.cons_append, List.length_cons,
      show a'.length + 1 + j = (a'.length + j) + 1 by omega,
      List.drop_succ_cons, ih]

/-- Helper: dropping inside the first block of an append. -/
theorem drop_append_le (a b : List Char) (i : Nat) (h : i ≤ a.length) :
    (a ++ b).drop i = a.drop i ++ b := by
  induction a generalizing i with
  | nil =>
    have : i = 0 := by simpa using h
    subst this
    simp
  | cons c a' ih =>
    cases i with
    | zero => simp
    | succ i' =>
      rw [List.cons_append, List.drop_succ_cons, List.drop_succ_cons,
        ih i' (by simpa using h)]

/-- Helper: a successful field-reference match exposes the list as the
four-character opener followed by the field name. -/
theorem matchFieldRef_shape {u r : List Char} (h : matchFieldRef u = some r) :
    ∃ q q2, isQuoteChar q = true ∧ isQuoteChar q2 = true ∧
      u = 'd' :: 'f' :: '[' :: q :: (wgChars ++ q2 :: ']' :: r) := by
  rcases hd : dropLit "df[".data u with _ | r1'
  · rw [matchFieldRef, hd] at h
    simp at h
  · rcases r1' with _ | ⟨q, r1⟩
    · rw [matchFieldRef, hd] at h
      simp at h
    · rw [matchFieldRef, hd] at h
      dsimp only at h
      by_cases hq : isQuoteChar q = true
      · rw [if_pos hq] at h
        rcases hw : dropLit wgChars r1 with _ | r2'
        · rw [hw] at h; simp at h
        · rw [hw] at h
          rcases r2' with _ | ⟨q2, r3'⟩
          · simp at h
          · rcases r3' with _ | ⟨br, r2⟩
            · simp at h
            · dsimp only at h
              by_cases hok : (isQuoteChar q2 && br = ']') = true
              · rw [if_pos hok] at h
                injection h with h'
                subst h'
                rw [Bool.and_eq_true] at hok
                have hbr : br = ']' := by simpa using hok.2
                subst hbr
                refine ⟨q, q2, hq, hok.1, ?_⟩
                have h1 := eq_append_of_dropLit hd
                have h2 := eq_append_of_dropLit hw
                rw [h1, h2]
                rfl
              · rw [if_neg hok] at h
                simp at h
      · rw [if_neg hq] at h
        simp at h

/-- C4 (witness): the injection theorem applied to a concrete three-line
script whose middle line is `df = scrape_data("http://x")`. -/
theorem C4_injection_after_first_scrape_stmt_witness :
    injectCleaningL ("x = 1\n".data
        ++ ("df = scrape_data(".data ++ ("\"http://x\"".data ++ ')' :: "\nprint(df)".data)))
      = "x = 1\n".data ++ ("df = scrape_data(".data ++ ("\"http://x\"".data ++ [')']))
        ++ '\n' :: injected_cleaning.data ++ "\nprint(df)".data :=
  C4_injection_after_first_scrape_stmt "x = 1\n".data "\"http://x\"".data "\nprint(df)".data
    (by decide) (Or.inr ⟨"print(df)".data, rfl⟩) (by decide)

/-- Helper: a successful sanitizer match exposes the field name four
characters in. -/
theorem matchWgAssign_shape {ns : Bool} {u : List Char} {k : Nat}
    (h : matchWgAssign ns u = some k) :
    ∃ q r, isQuoteChar q = true ∧ u = 'd' :: 'f' :: '[' :: q :: (wgChars ++ r) := by
  unfold matchWgAssign at h
  rcases h1 : matchFieldRef u with _ | r1
  · rw [h1] at h; simp at h
  · rcases matchFieldRef_shape h1 with ⟨q, q2, hq, _, rfl⟩
    exact ⟨q, q2 :: ']' :: r1, hq, rfl⟩

/-- Helper: sanitizer matches are nonempty. -/
theorem matchWgAssign_pos {ns : Bool} {l : List Char} {k : Nat}
    (h : matchWgAssign ns l = some k) : 1 ≤ k := by
  unfold matchWgAssign at h
  rcases h1 : matchFieldRef l with _ | r1 <;> rw [h1] at h
  · simp at h
  · dsimp only at h
    rcases h2 : r1.dropWhile pyWsChar with _ | ⟨c, r2⟩ <;> rw [h2] at h
    · simp at h
    · dsimp only at h
      by_cases hc : c = '='
      · rw [if_pos hc] at h
        rcases h3 : matchFieldRef (r2.dropWhile pyWsChar) with _ | r3 <;> rw [h3] at h
        · simp at h
        · dsimp only at h
          cases ns
          · rw [if_neg (by simp)] at h
            injection h with h'
            omega
          · rw [if_pos rfl] at h
            rcases h4 : dropLit ".str".data r3 with _ | r4 <;> rw [h4] at h
            · simp at h
            · injection h with h'
              omega
      · rw [if_neg hc] at h
        simp at h

/-- Helper: `startsWithL` holds at a literal prefix. -/
theorem startsWithL_append_self (pat r : List Char) :
    startsWithL pat (pat ++ r) = true := by
  rw [startsWithL, dropLit_append_self]
  rfl

/-- Helper: a prefix occurrence is an occurrence. -/
theorem hasSubstr_of_startsWith {pat l : List Char}
    (h : startsWithL pat l = true) : hasSubstr pat l = true := by
  cases l with
  | nil => simpa [hasSubstr] using h
  | cons c r => simp [hasSubstr, h]

/-- Helper: an occurrence in the middle is an occurrence. -/
theorem hasSubstr_of_middle (pat x y : List Char) :
    hasSubstr pat (x ++ pat ++ y) = true := by
  induction x with
  | nil => simpa using hasSubstr_of_startsWith (startsWithL_append_self pat y)
  | cons c x' ih =>
    rw [show ((c :: x') ++ pat ++ y : List Char) = c :: (x' ++ pat ++ y) by simp]
    rw [hasSubstr, ih, Bool.or_true]

/-- Helper: an occurrence at any dropped offset is an occurrence. -/
theorem hasSubstr_of_drop {pat l : List Char} {j : Nat}
    (h : startsWithL pat (l.drop j) = true) : hasSubstr pat l = true := by
  induction l generalizing j with
  | nil => cases j <;> simpa [hasSubstr] using h
  | cons c r ih =>
    cases j with
    | zero => exact hasSubstr_of_startsWith h
    | succ j' =>
      rw [List.drop_succ_cons] at h
      simp [hasSubstr, ih h]

/-- Helper: substitution on the empty text. -/
theorem subAllGen_nil (m : List Char → Option Nat) (fuel : Nat) :
    subAllGen m fuel [] = [] := by
  cases fuel <;> simp [subAllGen, firstMatchGen]

/-- Helper: substitution without a match is the identity. -/
theorem subAllGen_no_match {m : List Char → Option Nat} {l : List Char}
    (h : firstMatchGen m l = none) (fuel : Nat) : subAllGen m fuel l = l := by
  cases fuel with
  | zero => rfl
  | succ f => rw [subAllGen, h]

/-- Helper: a leftmost match is a match of the dropped suffix, at a position
inside the text. -/
theorem firstMatchGen_some_spec {m : List Char → Option Nat} :
    ∀ {l : List Char} {i k : Nat}, firstMatchGen m l = some (i, k) →
      m (l.drop i) = some k ∧ i < l.length := by
  intro l
  induction l with
  | nil => intro i k h; simp [firstMatchGen] at h
  | cons c rest ih =>
    intro i k h
    rw [firstMatchGen] at h
    rcases hm : m (c :: rest) with _ | k' <;> rw [hm] at h
    · dsimp only at h
      rcases hfm : firstMatchGen m rest with _ | p <;> rw [hfm] at h
      · simp at h
      · obtain ⟨i', k''⟩ := p
        simp only [Option.map_some', Option.some.injEq, Prod.mk.injEq] at h
        obtain ⟨h1, h2⟩ := h
        subst h1
        subst h2
        obtain ⟨hm', hl'⟩ := ih hfm
        exact ⟨hm', by simpa using Nat.succ_lt_succ hl'⟩
    · simp only [Option.some.injEq, Prod.mk.injEq] at h
      obtain ⟨h1, h2⟩ := h
      subst h1
      subst h2
      exact ⟨hm, by simp⟩

/-- Helper: the substitution result does not depend on the fuel, once the
fuel covers the text. -/
theorem subAllGen_fuel {m : List Char → Option Nat}
    (hm : ∀ l k, m l = some k → 1 ≤ k) :
    ∀ (n : Nat) (l : List Char) (fuel fuel' : Nat), l.length ≤ n →
      l.length ≤ fuel → l.length ≤ fuel' →
      subAllGen m fuel l = subAllGen m fuel' l := by
  intro n
  induction n with
  | zero =>
    intro l fuel fuel' hn _ _
    have hl : l = [] := List.length_eq_zero.mp (by omega)
    subst hl
    rw [subAllGen_nil, subAllGen_nil]
  | succ n ih =>
    intro l fuel fuel' hn hf hf'
    rcases hfm : firstMatchGen m l with _ | ⟨i, k⟩
    · rw [subAllGen_no_match hfm, subAllGen_no_match hfm]
    · obtain ⟨hmk, hil⟩ := firstMatchGen_some_spec hfm
      have hk : 1 ≤ k := hm _ _ hmk
      cases fuel with
      | zero =>
        have hl : l = [] := List.length_eq_zero.mp (by omega)
        subst hl
        simp [firstMatchGen] at hfm
      | succ f =>
        cases fuel' with
        | zero =>
          have hl : l = [] := List.length_eq_zero.mp (by omega)
          subst hl
          simp [firstMatchGen] at hfm
        | succ f' =>
          rw [subAllGen, hfm, subAllGen, hfm]
          dsimp only
          congr 1
          apply ih
          · have := List.length_drop (i + k) l
            omega
          · have := List.length_drop (i + k) l
            omega
          · have := List.length_drop (i + k) l
            omega

/-- Helper: substitution over a region with no match start keeps the region
and substitutes the remainder. -/
theorem subAllGen_append_clean {m : List Char → Option Nat}
    (hm : ∀ l k, m l = some k → 1 ≤ k) (a b : List Char)
    (h : ∀ i < a.length, m ((a ++ b).drop i) = none)
    (fuel : Nat) (hf : (a ++ b).length ≤ fuel) :
    subAllGen m fuel (a ++ b) = a ++ subAllGen m b.length b := by
  have hshift := firstMatchGen_append_shift m a b h
  rcases hfb : firstMatchGen m b with _ | ⟨j, k⟩ <;> rw [hfb] at hshift
  · rw [subAllGen_no_match (by simpa using hshift), subAllGen_no_match hfb]
  · obtain ⟨hmk, hjb⟩ := firstMatchGen_some_spec hfb
    have hk := hm _ _ hmk
    have hab : (a ++ b).length = a.length + b.length := List.length_append a b
    simp only [Option.map_some'] at hshift
    cases fuel with
    | zero => omega
    | succ f =>
      rcases hbl : b.length with _ | B
      · omega
      · rw [subAllGen, hshift]
        dsimp only
        rw [subAllGen, hfb]
        dsimp only
        rw [show j + a.length = a.length + j from by omega, take_append_add,
          show a.length + j + k = a.length + (j + k) from by omega, drop_append_add,
          List.append_assoc]
        congr 2
        apply subAllGen_fuel hm (b.drop (j + k)).length
        · exact Nat.le_refl _
        · have := List.length_drop (j + k) b
          omega
        · have := List.length_drop (j + k) b
          omega

/-- Helper: taking inside the first block of an append. -/
theorem take_append_le (a b : List Char) (n : Nat) (h : n ≤ a.length) :
    (a ++ b).take n = a.take n := by
  induction a generalizing n with
  | nil =>
    have : n = 0 := by simpa using h
    subst this
    simp
  | cons c a' ih =>
    cases n with
    | zero => simp
    | succ n' =>
      rw [List.cons_append, List.take_succ_cons, List.take_succ_cons,
        ih n' (by simpa using h)]

/-- Helper: the field-reference matcher consumes exactly a field reference. -/
theorem matchFieldRef_fieldRef (q1 q2 : Char) (hq1 : isQuoteChar q1 = true)
    (hq2 : isQuoteChar q2 = true) (X : List Char) :
    matchFieldRef (fieldRef q1 q2 ++ X) = some X := by
  rw [show (fieldRef q1 q2 ++ X : List Char)
      = "df[".data ++ (q1 :: (wgChars ++ (q2 :: ']' :: X))) by simp [fieldRef]]
  rw [matchFieldRef, dropLit_append_self]
  dsimp only
  rw [if_pos hq1, dropLit_append_self]
  dsimp only
  rw [if_pos (by simp [hq2])]

/-- Helper: a whitespace run followed by a non-whitespace character splits a
`takeWhile`/`dropWhile` pair. -/
theorem takeWhile_ws_run {sp : List Char} (hsp : ∀ c ∈ sp, pyWsChar c = true)
    {c : Char} (hc : pyWsChar c = false) (Y : List Char) :
    (sp ++ c :: Y).takeWhile pyWsChar = sp
      ∧ (sp ++ c :: Y).dropWhile pyWsChar = c :: Y := by
  constructor
  · rw [takeWhile_append_all _ hsp, List.takeWhile_cons, hc]
    simp
  · rw [dropWhile_append_all _ hsp, List.dropWhile_cons, hc]
    simp

/-- Helper: the greedy `[^\n]*\n?` over a line remainder consumes the
remainder and its newline. -/
theorem lineTail_line {a rest : List Char} (ha : ∀ c ∈ a, c ≠ '\n') :
    lineTail (a ++ '\n' :: rest) = a.length + 1 := by
  have ht : (a ++ '\n' :: rest).takeWhile nonNl = a := by
    rw [takeWhile_append_all _ (fun c hc => by simp [nonNl, ha c hc]),
      List.takeWhile_cons]
    simp [nonNl]
  rw [lineTail, ht, List.drop_left]
  dsimp only
  rw [if_pos rfl]

/-- Helper: the sanitizer matcher evaluated along the shape of a field
self-assignment: the two references, the whitespace runs and the `=` are
consumed, and the outcome is decided by the remainder `r`. -/
theorem matchWgAssign_spine (ns : Bool) (q1 q2 q3 q4 : Char)
    (hq1 : isQuoteChar q1 = true) (hq2 : isQuoteChar q2 = true)
    (hq3 : isQuoteChar q3 = true) (hq4 : isQuoteChar q4 = true)
    (sp1 sp2 : List Char) (hsp1 : ∀ c ∈ sp1, pyWsChar c = true)
    (hsp2 : ∀ c ∈ sp2, pyWsChar c = true) (r : List Char) :
    matchWgAssign ns
      (fieldRef q1 q2 ++ (sp1 ++ '=' :: (sp2 ++ (fieldRef q3 q4 ++ r))))
      = if ns then
          match dropLit ".str".data r with
          | none => none
          | some r4 =>
            some (21 + sp1.length + 1 + sp2.length + 21 + 4 + lineTail r4)
        else some (21 + sp1.length + 1 + sp2.length + 21 + lineTail r) := by
  have heq : pyWsChar '=' = false := by decide
  have hd : pyWsChar 'd' = false := by decide
  have hsplit1 := takeWhile_ws_run hsp1 heq (sp2 ++ (fieldRef q3 q4 ++ r))
  have hshape : (fieldRef q3 q4 ++ r : List Char)
      = 'd' :: ('f' :: '[' :: q3 :: (wgChars ++ [q4, ']']) ++ r) := by
    simp [fieldRef]
  have hsplit2 : (sp2 ++ (fieldRef q3 q4 ++ r)).takeWhile pyWsChar = sp2
      ∧ (sp2 ++ (fieldRef q3 q4 ++ r)).dropWhile pyWsChar = fieldRef q3 q4 ++ r := by
    rw [hshape]
    exact takeWhile_ws_run hsp2 hd _
  rw [matchWgAssign, matchFieldRef_fieldRef q1 q2 hq1 hq2]
  dsimp only
  rw [hsplit1.2]
  dsimp only
  rw [if_pos rfl, hsplit2.2, matchFieldRef_fieldRef q3 q4 hq3 hq4]
  dsimp only
  rw [hsplit1.1, hsplit2.1]

/-- Helper: a sanitizer match starting at offset `i` inside a line places
the field name, all within the line, at offset `i + 4`. -/
theorem matchWgAssign_in_line {ns : Bool} {l rest : List Char} {i k : Nat}
    (hi : i ≤ l.length)
    (h : matchWgAssign ns ((l ++ '\n' :: rest).drop i) = some k) :
    i + 19 ≤ l.length ∧ startsWithL wgChars (l.drop (i + 4)) = true := by
  rw [drop_append_le l ('\n' :: rest) i hi] at h
  obtain ⟨q, r, hq, hu⟩ := matchWgAssign_shape h
  have hqc : q = '\'' ∨ q = '"' := by simpa [isQuoteChar] using hq
  have hu' : l.drop i ++ '\n' :: rest
      = ('d' :: 'f' :: '[' :: q :: wgChars) ++ r := by
    rw [hu]
    simp
  have hpfxlen : ('d' :: 'f' :: '[' :: q :: wgChars : List Char).length = 19 := by
    simp [wgChars]
  have hdlen : (l.drop i).length = l.length - i := List.length_drop i l
  by_cases hlen : 19 ≤ (l.drop i).length
  · have htake : (l.drop i).take 19 = 'd' :: 'f' :: '[' :: q :: wgChars := by
      have t1 : (l.drop i ++ '\n' :: rest).take 19 = (l.drop i).take 19 :=
        take_append_le _ _ 19 hlen
      have t2 : ((('d' :: 'f' :: '[' :: q :: wgChars) ++ r : List Char)).take 19
          = 'd' :: 'f' :: '[' :: q :: wgChars := List.take_left' hpfxlen
      rw [← t1, hu', t2]
    have hsplit : l.drop i
        = ('d' :: 'f' :: '[' :: q :: wgChars) ++ (l.drop i).drop 19 := by
      conv_lhs => rw [← List.take_append_drop 19 (l.drop i)]
      rw [htake]
    constructor
    · omega
    · have : l.drop (i + 4) = wgChars ++ (l.drop i).drop 19 := by
        rw [show i + 4 = i + 4 from rfl, ← List.drop_drop, hsplit]
        rfl
      rw [this]
      exact startsWithL_append_self wgChars _
  · exfalso
    have hn : (l.drop i ++ '\n' :: rest)[(l.drop i).length]? = some '\n' := by
      rw [List.getElem?_append_right (Nat.le_refl _)]
      simp
    rw [hu'] at hn
    have hlt : (l.drop i).length < 19 := by omega
    rw [List.getElem?_append_left (by omega)] at hn
    have hmem : '\n' ∈ ('d' :: 'f' :: '[' :: q :: wgChars : List Char) :=
      List.getElem?_mem hn
    rcases hqc with rfl | rfl <;> revert hmem <;> decide

/-- Helper: no sanitizer match starts inside a line that does not mention
the field name. -/
theorem matchWgAssign_none_of_clean {ns : Bool} {l rest : List Char}
    (hcl : CleanWgLine l) :
    ∀ i ≤ l.length, matchWgAssign ns ((l ++ '\n' :: rest).drop i) = none := by
  intro i hi
  by_contra hne
  rcases Option.ne_none_iff_exists'.mp hne with ⟨k, hk⟩
  obtain ⟨-, hstart⟩ := matchWgAssign_in_line hi hk
  rw [CleanWgLine, hasSubstr_of_drop hstart] at hcl
  simp at hcl

/-- Helper: a field reference is 21 characters long. -/
theorem fieldRef_length (a b : Char) : (fieldRef a b).length = 21 := by
  have h15 : ("Worldwide gross".data).length = 15 := by decide
  simp [fieldRef, wgChars, h15]

/-- Helper: the length of a field self-assignment line. -/
theorem bad_line_length (q1 q2 q3 q4 : Char) (sp1 sp2 tail : List Char) :
    (fieldRef q1 q2 ++ sp1 ++ '=' :: sp2 ++ fieldRef q3 q4 ++ tail).length
      = 21 + sp1.length + 1 + sp2.length + 21 + tail.length := by
  simp [fieldRef_length, List.length_append]
  omega

/-- Helper: a newline-free literal that fails against a line keeps failing
with more lines appended. -/
theorem dropLit_none_extend {pat : List Char} (hp : ∀ c ∈ pat, c ≠ '\n') :
    ∀ {a : List Char}, dropLit pat (a ++ ['\n']) = none →
      ∀ rest, dropLit pat (a ++ '\n' :: rest) = none := by
  induction pat with
  | nil => intro a h rest; simp [dropLit] at h
  | cons p ps ih =>
    intro a h rest
    cases a with
    | nil =>
      have hpn : ¬ p = '\n' := hp p (by simp)
      rw [List.nil_append, dropLit, if_neg hpn]
    | cons x a' =>
      rw [List.cons_append] at h ⊢
      rw [dropLit] at h ⊢
      by_cases hx : p = x
      · rw [if_pos hx] at h ⊢
        exact ih (fun c hc => hp c (by simp [hc])) h rest
      · rw [if_neg hx]

/-- Helper: a newline-free literal that succeeds against a line lies inside
the line. -/
theorem dropLit_some_within {pat : List Char} (hp : ∀ c ∈ pat, c ≠ '\n') :
    ∀ {a t : List Char}, dropLit pat (a ++ ['\n']) = some t →
      ∃ a2, a = pat ++ a2 := by
  induction pat with
  | nil => intro a t _; exact ⟨a, rfl⟩
  | cons p ps ih =>
    intro a t h
    cases a with
    | nil =>
      rw [List.nil_append, dropLit] at h
      rw [if_neg (hp p (by simp))] at h
      exact absurd h (by simp)
    | cons x a' =>
      rw [List.cons_append, dropLit] at h
      by_cases hx : p = x
      · rw [if_pos hx] at h
        obtain ⟨a2, ha2⟩ := ih (fun c hc => hp c (by simp [hc])) h
        refine ⟨a2, ?_⟩
        rw [List.cons_append, ← hx, ha2]
      · rw [if_neg hx] at h
        exact absurd h (by simp)

/-- Helper: the second sanitizer pass matches a bad line wholly, whatever
follows it. -/
theorem bad_line_match_false {l : List Char} (hb : BadWgLine l) (rest : List Char) :
    matchWgAssign false (l ++ '\n' :: rest) = some (l.length + 1) := by
  obtain ⟨q1, q2, q3, q4, sp1, sp2, tws, tc, trest, hq1, hq2, hq3, hq4,
    hsp1, hsp2, htws, htc, htcne, htail, hl, hws⟩ := hb
  have htail' : ∀ c ∈ tws ++ tc :: trest, c ≠ '\n' := by
    intro c hc
    rcases List.mem_append.mp hc with hc' | hc'
    · exact (htws c hc').2
    · exact htail c hc'
  rw [hl]
  rw [show (fieldRef q1 q2 ++ sp1 ++ '=' :: sp2 ++ fieldRef q3 q4
        ++ (tws ++ tc :: trest)) ++ '\n' :: rest
      = fieldRef q1 q2 ++ (sp1 ++ '=' :: (sp2 ++ (fieldRef q3 q4
        ++ ((tws ++ tc :: trest) ++ '\n' :: rest)))) by simp]
  rw [matchWgAssign_spine false q1 q2 q3 q4 hq1 hq2 hq3 hq4 sp1 sp2
    (fun c hc => (hsp1 c hc).1) (fun c hc => (hsp2 c hc).1)]
  rw [if_neg (by simp)]
  rw [lineTail_line htail']
  rw [bad_line_length]
  simp only [Option.some.injEq]
  omega

/-- Helper: the first sanitizer pass gives the same verdict on a bad line
whatever follows it: the decision is made inside the line. -/
theorem bad_line_match_true_eq {l : List Char} (hb : BadWgLine l) (rest : List Char) :
    matchWgAssign true (l ++ '\n' :: rest) = matchWgAssign true (l ++ ['\n']) := by
  obtain ⟨q1, q2, q3, q4, sp1, sp2, tws, tc, trest, hq1, hq2, hq3, hq4,
    hsp1, hsp2, htws, htc, htcne, htail, hl, hws⟩ := hb
  have hstr : ∀ c ∈ (".str".data : List Char), c ≠ '\n' := by decide
  have htail' : ∀ c ∈ tws ++ tc :: trest, c ≠ '\n' := by
    intro c hc
    rcases List.mem_append.mp hc with hc' | hc'
    · exact (htws c hc').2
    · exact htail c hc'
  rw [hl]
  rw [show (fieldRef q1 q2 ++ sp1 ++ '=' :: sp2 ++ fieldRef q3 q4
        ++ (tws ++ tc :: trest)) ++ '\n' :: rest
      = fieldRef q1 q2 ++ (sp1 ++ '=' :: (sp2 ++ (fieldRef q3 q4
        ++ ((tws ++ tc :: trest) ++ '\n' :: rest)))) by simp]
  rw [show (fieldRef q1 q2 ++ sp1 ++ '=' :: sp2 ++ fieldRef q3 q4
        ++ (tws ++ tc :: trest)) ++ ['\n']
      = fieldRef q1 q2 ++ (sp1 ++ '=' :: (sp2 ++ (fieldRef q3 q4
        ++ ((tws ++ tc :: trest) ++ ['\n'])))) by simp]
  rw [matchWgAssign_spine true q1 q2 q3 q4 hq1 hq2 hq3 hq4 sp1 sp2
    (fun c hc => (hsp1 c hc).1) (fun c hc => (hsp2 c hc).1)]
  rw [matchWgAssign_spine true q1 q2 q3 q4 hq1 hq2 hq3 hq4 sp1 sp2
    (fun c hc => (hsp1 c hc).1) (fun c hc => (hsp2 c hc).1)]
  rw [if_pos rfl, if_pos rfl]
  rcases hds : dropLit ".str".data ((tws ++ tc :: trest) ++ ['\n']) with _ | t
  · rw [dropLit_none_extend hstr hds rest]
  · obtain ⟨a2, ha2⟩ := dropLit_some_within hstr hds
    have ha2n : ∀ c ∈ a2, c ≠ '\n' := by
      intro c hc
      exact htail' c (by rw [ha2]; exact List.mem_append.mpr (Or.inr hc))
    have hteq : t = a2 ++ ['\n'] := by
      have h1 := eq_append_of_dropLit hds
      rw [ha2] at h1
      have h2 : (".str".data : List Char) ++ (a2 ++ ['\n'])
          = ".str".data ++ t := by
        rw [← h1]
        simp
      exact (List.append_cancel_left h2).symm
    rw [ha2, hteq]
    simp only [List.append_assoc]
    rw [dropLit_append_self]
    dsimp only
    rw [lineTail_line ha2n, lineTail_line ha2n]

/-- Helper: the first pass on a bad line either fails or matches the whole
line with its newline. -/
theorem bad_line_true_cases {l : List Char} (hb : BadWgLine l) :
    matchWgAssign true (l ++ ['\n']) = none
      ∨ matchWgAssign true (l ++ ['\n']) = some (l.length + 1) := by
  obtain ⟨q1, q2, q3, q4, sp1, sp2, tws, tc, trest, hq1, hq2, hq3, hq4,
    hsp1, hsp2, htws, htc, htcne, htail, hl, hws⟩ := hb
  have hstr : ∀ c ∈ (".str".data : List Char), c ≠ '\n' := by decide
  have htail' : ∀ c ∈ tws ++ tc :: trest, c ≠ '\n' := by
    intro c hc
    rcases List.mem_append.mp hc with hc' | hc'
    · exact (htws c hc').2
    · exact htail c hc'
  rw [hl]
  rw [show (fieldRef q1 q2 ++ sp1 ++ '=' :: sp2 ++ fieldRef q3 q4
        ++ (tws ++ tc :: trest)) ++ ['\n']
      = fieldRef q1 q2 ++ (sp1 ++ '=' :: (sp2 ++ (fieldRef q3 q4
        ++ ((tws ++ tc :: trest) ++ ['\n'])))) by simp]
  rw [matchWgAssign_spine true q1 q2 q3 q4 hq1 hq2 hq3 hq4 sp1 sp2
    (fun c hc => (hsp1 c hc).1) (fun c hc => (hsp2 c hc).1)]
  rw [if_pos rfl]
  rcases hds : dropLit ".str".data ((tws ++ tc :: trest) ++ ['\n']) with _ | t
  · exact Or.inl rfl
  · right
    obtain ⟨a2, ha2⟩ := dropLit_some_within hstr hds
    have ha2n : ∀ c ∈ a2, c ≠ '\n' := by
      intro c hc
      exact htail' c (by rw [ha2]; exact List.mem_append.mpr (Or.inr hc))
    have hteq : t = a2 ++ ['\n'] := by
      have h1 := eq_append_of_dropLit hds
      rw [ha2] at h1
      have h2 : (".str".data : List Char) ++ (a2 ++ ['\n'])
          = ".str".data ++ t := by
        rw [← h1]
        simp
      exact (List.append_cancel_left h2).symm
    rw [hteq]
    dsimp only
    rw [lineTail_line ha2n]
    rw [bad_line_length]
    have hlen2 : (tws ++ tc :: trest).length = 4 + a2.length := by
      rw [ha2]
      have h4 : (".str".data : List Char).length = 4 := by decide
      simp [List.length_append, h4]
      omega
    simp only [hlen2, Option.some.injEq]
    omega

/-- Helper: no sanitizer match starts strictly inside a bad line. -/
theorem bad_line_no_interior {ns : Bool} {l : List Char} (hb : BadWgLine l)
    (rest : List Char) :
    ∀ i, i ≤ l.length → i ≠ 0 →
      matchWgAssign ns ((l ++ '\n' :: rest).drop i) = none := by
  intro i hile hi0
  by_contra hne
  rcases Option.ne_none_iff_exists'.mp hne with ⟨k, hk⟩
  obtain ⟨hfit, hstart⟩ := matchWgAssign_in_line hile hk
  obtain ⟨q1, q2, q3, q4, sp1, sp2, tws, tc, trest, hq1, hq2, hq3, hq4,
    hsp1, hsp2, htws, htc, htcne, htail, hl, hws⟩ := hb
  have hmem : i + 4 ∈ wgStarts l := by
    rw [wgStarts, List.mem_filter]
    exact ⟨List.mem_range.mpr (by omega), hstart⟩
  rw [hws] at hmem
  simp only [List.mem_cons, List.not_mem_nil, or_false] at hmem
  rcases hmem with h4 | hR
  · omega
  · have hiR : i = 21 + sp1.length + 1 + sp2.length := by omega
    have hdrop : (l ++ '\n' :: rest).drop (21 + sp1.length + 1 + sp2.length)
        = fieldRef q3 q4 ++ ((tws ++ tc :: trest) ++ '\n' :: rest) := by
      rw [hl]
      rw [show (fieldRef q1 q2 ++ sp1 ++ '=' :: sp2 ++ fieldRef q3 q4
            ++ (tws ++ tc :: trest)) ++ '\n' :: rest
          = (fieldRef q1 q2 ++ sp1 ++ '=' :: sp2)
            ++ (fieldRef q3 q4 ++ ((tws ++ tc :: trest) ++ '\n' :: rest)) by simp]
      apply List.drop_left'
      simp [fieldRef_length, List.length_append]
      omega
    rw [hiR, hdrop] at hk
    rw [matchWgAssign, matchFieldRef_fieldRef q3 q4 hq3 hq4] at hk
    dsimp only at hk
    rw [show ((tws ++ tc :: trest) ++ '\n' :: rest : List Char)
        = tws ++ tc :: (trest ++ '\n' :: rest) by simp] at hk
    rw [(takeWhile_ws_run (fun c hc => (htws c hc).1) htc _).2] at hk
    dsimp only at hk
    rw [if_neg htcne] at hk
    simp at hk

/-- Helper: a bad line is deleted by the second pass. -/
theorem bad_line_isFullBad {l : List Char} (hb : BadWgLine l) :
    isFullBad false l = true := by
  rw [isFullBad, decide_eq_true_eq]
  exact bad_line_match_false hb []

/-- Helper: a clean line is deleted by neither pass. -/
theorem clean_line_not_isFullBad {ns : Bool} {l : List Char} (hcl : CleanWgLine l) :
    isFullBad ns l = false := by
  rw [isFullBad, decide_eq_false_iff_not]
  intro hcontra
  have := @matchWgAssign_none_of_clean ns l [] hcl 0 (by omega)
  rw [List.drop_zero] at this
  rw [this] at hcontra
  exact Option.noConfusion hcontra

/-- Helper: a line deleted by a pass is one full leftmost match, whatever
follows it. -/
theorem full_match_of_isFullBad {ns : Bool} {l : List Char}
    (hgood : CleanWgLine l ∨ BadWgLine l) (h : isFullBad ns l = true)
    (rest : List Char) :
    matchWgAssign ns (l ++ '\n' :: rest) = some (l.length + 1) := by
  rcases hgood with hcl | hb
  · rw [clean_line_not_isFullBad hcl] at h
    exact absurd h (by simp)
  · cases ns with
    | false => exact bad_line_match_false hb rest
    | true =>
      rw [bad_line_match_true_eq hb rest]
      exact of_decide_eq_true h

/-- Helper: a line kept by a pass hosts no match start at all. -/
theorem no_match_of_not_isFullBad {ns : Bool} {l : List Char}
    (hgood : CleanWgLine l ∨ BadWgLine l) (h : isFullBad ns l = false)
    (rest : List Char) :
    ∀ i ≤ l.length, matchWgAssign ns ((l ++ '\n' :: rest).drop i) = none := by
  intro i hi
  rcases hgood with hcl | hb
  · exact matchWgAssign_none_of_clean hcl i hi
  · cases ns with
    | false =>
      rw [bad_line_isFullBad hb] at h
      exact absurd h (by simp)
    | true =>
      by_cases hi0 : i = 0
      · subst hi0
        simp only [List.drop_zero]
        rw [bad_line_match_true_eq hb rest]
        rcases bad_line_true_cases hb with hn | hs
        · exact hn
        · rw [isFullBad, hs] at h
          simp at h
      · exact bad_line_no_interior hb rest i hi hi0

/-- Helper: a match at the head of a nonempty text is the leftmost match. -/
theorem firstMatchGen_head {m : List Char → Option Nat} {u : List Char} {k : Nat}
    (hu : u ≠ []) (h : m u = some k) : firstMatchGen m u = some (0, k) := by
  cases u with
  | nil => exact absurd rfl hu
  | cons c r => exact firstMatchGen_cons_some h

/-- Helper: one sanitizer pass over a script of classified lines deletes
exactly the lines the pass fully matches, and keeps every other line
verbatim, in order. -/
theorem reSubAll_lines (ns : Bool) :
    ∀ ls : List (List Char), (∀ l ∈ ls, CleanWgLine l ∨ BadWgLine l) →
      reSubAll (matchWgAssign ns) (joinL ls)
        = joinL (ls.filter (fun l => !(isFullBad ns l))) := by
  intro ls
  induction ls with
  | nil => intro _; rfl
  | cons l ls' ih =>
    intro hgood
    have hl := hgood l (by simp)
    have hrest : ∀ x ∈ ls', CleanWgLine x ∨ BadWgLine x :=
      fun x hx => hgood x (by simp [hx])
    have hmpos : ∀ u k, matchWgAssign ns u = some k → 1 ≤ k :=
      fun u k h => matchWgAssign_pos h
    have hjlen : (l ++ '\n' :: joinL ls').length
        = l.length + (joinL ls').length + 1 := by
      simp [List.length_append]
      omega
    by_cases hbad : isFullBad ns l = true
    · have hm0 : matchWgAssign ns (l ++ '\n' :: joinL ls') = some (l.length + 1) :=
        full_match_of_isFullBad hl hbad (joinL ls')
      have hne : l ++ '\n' :: joinL ls' ≠ [] := by simp
      have hfirst := firstMatchGen_head hne hm0
      rw [joinL, reSubAll, hjlen, show l.length + (joinL ls').length + 1
          = (l.length + (joinL ls').length) + 1 from rfl, subAllGen, hfirst]
      dsimp only
      have hdrop : (l ++ '\n' :: joinL ls').drop (0 + (l.length + 1))
          = joinL ls' := by
        rw [show (l ++ '\n' :: joinL ls' : List Char)
            = (l ++ ['\n']) ++ joinL ls' by simp]
        apply List.drop_left'
        simp
      rw [List.take_zero, List.nil_append, hdrop]
      rw [subAllGen_fuel hmpos (joinL ls').length (joinL ls')
        (l.length + (joinL ls').length) (joinL ls').length (Nat.le_refl _)
        (by omega) (Nat.le_refl _)]
      rw [show subAllGen (matchWgAssign ns) (joinL ls').length (joinL ls')
          = reSubAll (matchWgAssign ns) (joinL ls') from rfl]
      rw [ih hrest]
      simp [List.filter_cons, hbad]
    · have hbad' : isFullBad ns l = false := by
        cases hfb : isFullBad ns l
        · rfl
        · exact absurd hfb hbad
      have hnone : ∀ i < (l ++ ['\n']).length,
          matchWgAssign ns (((l ++ ['\n']) ++ joinL ls').drop i) = none := by
        intro i hi
        have hi' : i ≤ l.length := by
          simp [List.length_append] at hi
          omega
        rw [show ((l ++ ['\n']) ++ joinL ls' : List Char)
            = l ++ '\n' :: joinL ls' by simp]
        exact no_match_of_not_isFullBad hl hbad' (joinL ls') i hi'
      rw [joinL, show (l ++ '\n' :: joinL ls' : List Char)
          = (l ++ ['\n']) ++ joinL ls' by simp]
      rw [reSubAll, subAllGen_append_clean hmpos _ _ hnone _ (Nat.le_refl _)]
      rw [show subAllGen (matchWgAssign ns) (joinL ls').length (joinL ls')
          = reSubAll (matchWgAssign ns) (joinL ls') from rfl]
      rw [ih hrest]
      rw [List.filter_cons, if_pos (by simp [hbad'])]
      rw [joinL]
      simp

/-- Helper: a line the first pass deletes is one the second pass would
delete as well. -/
theorem isFullBad_true_imp_false {l : List Char}
    (hgood : CleanWgLine l ∨ BadWgLine l) (h : isFullBad true l = true) :
    isFullBad false l = true := by
  rcases hgood with hcl | hb
  · rw [clean_line_not_isFullBad hcl] at h
    exact absurd h (by simp)
  · exact bad_line_isFullBad hb

/-- C7 (counterexample): the statement
`df['Worldwide gross'] = pd.to_numeric(df['Worldwide gross'], errors='coerce')`
reassigns the `Worldwide gross` field using its own prior value, yet the
sanitizer's two passes leave it untouched, because both regexes require the
right-hand side to *begin* with `df['Worldwide gross']`. -/
theorem C7_counterexample_to_numeric_survives :
    sanitize_code
      "df['Worldwide gross'] = pd.to_numeric(df['Worldwide gross'], errors='coerce')"
      = "df['Worldwide gross'] = pd.to_numeric(df['Worldwide gross'], errors='coerce')" := by
  decide

/-- C7 (amended): over a script whose lines each either never mention the
field name or are single-line statements of the textual shape
`df[q]Worldwide gross[q] = df[q]Worldwide gross[q]…` (the right-hand side
beginning with the field itself), the two sequential deterministic passes
delete exactly the lines of that shape — the `.str`-chain pass first, the
general-reassignment pass second — and reproduce every other line verbatim
in its original order.  Reassignments through other expressions (e.g. a
`pd.to_numeric(...)` wrapper) are not removed. -/
theorem C7_sanitizer_removes_bad_lines (ls : List (List Char))
    (hgood : ∀ l ∈ ls, CleanWgLine l ∨ BadWgLine l) :
    sanitize_code ⟨joinL ls⟩
      = ⟨joinL (ls.filter (fun l => !(isFullBad false l)))⟩ := by
  refine congrArg String.mk ?_
  rw [show (String.mk (joinL ls)).data = joinL ls from rfl]
  rw [reSubAll_lines true ls hgood]
  rw [reSubAll_lines false (ls.filter (fun l => !(isFullBad true l)))
    (fun l hl => hgood l (List.mem_of_mem_filter hl))]
  rw [List.filter_filter]
  apply congrArg joinL
  apply List.filter_congr
  intro l hl
  by_cases h1 : isFullBad true l = true
  · have h0 := isFullBad_true_imp_false (hgood l hl) h1
    simp [h1, h0]
  · simp [Bool.eq_false_iff.mpr h1]

/-- C7 (witness): the amended theorem applied to a concrete four-line
generated script: the `.str`-chain reassignment and the arithmetic
self-reassignment of the gross field are deleted, the surrounding lines are
kept in order. -/
theorem C7_sanitizer_removes_bad_lines_witness :
    sanitize_code ⟨joinL ["df = scrape_data(url)".data,
        "df['Worldwide gross'] = df['Worldwide gross'].str.replace(',', '')".data,
        "df['Worldwide gross'] = df['Worldwide gross'] * 2".data,
        "print(json.dumps(result))".data]⟩
      = ⟨joinL (["df = scrape_data(url)".data,
        "df['Worldwide gross'] = df['Worldwide gross'].str.replace(',', '')".data,
        "df['Worldwide gross'] = df['Worldwide gross'] * 2".data,
        "print(json.dumps(result))".data].filter
          (fun l => !(isFullBad false l)))⟩ :=
  C7_sanitizer_removes_bad_lines _ (by
    intro l hl
    simp only [List.mem_cons, List.not_mem_nil, or_false] at hl
    rcases hl with rfl | rfl | rfl | rfl
    · exact Or.inl (by decide)
    · exact Or.inr ⟨'\'', '\'', '\'', '\'', [' '], [' '], [], '.',
        "str.replace(',', '')".data, by decide, by decide, by decide, by decide,
        by decide, by decide, by decide, by decide, by decide, by decide,
        by decide, by decide⟩
    · exact Or.inr ⟨'\'', '\'', '\'', '\'', [' '], [' '], [' '], '*',
        " 2".data, by decide, by decide, by decide, by decide,
        by decide, by decide, by decide, by decide, by decide, by decide,
        by decide, by decide⟩
    · exact Or.inl (by decide))

end DataAnalystAgent
